import Mathlib

/-!
Verification of the DOM Extraction & Compression Core of the Clawome
repository (`backend/dom_parser.py`, `backend/compressors/default.py`,
`backend/compressor_manager.py`) against its natural-language
specification.

The Python code is shallowly embedded: dictionaries holding DOM node
records become a Lean structure (`DNode`) whose fields carry the same
names; absent dictionary keys are represented by the default values the
Python code supplies through `dict.get`; Python strings become `String`
(operated on through their character lists so that all definitions are
kernel-computable); Python float threshold comparisons such as
`freq < n * 0.7` are embedded as the exact integer comparisons
`10 * freq < 7 * n`.
-/

namespace Clawome

/-! ### Python string primitives -/

/-- Python `a.startswith(b)` on character lists. -/
def startsWithL : List Char → List Char → Bool
  | [], _ => true
  | _ :: _, [] => false
  | a :: as_, b :: bs => a == b && startsWithL as_ bs

/-- Python substring membership `pat in s` on character lists. -/
def containsL (pat : List Char) : List Char → Bool
  | [] => startsWithL pat []
  | l@(_ :: rest) => startsWithL pat l || containsL pat rest

/-- Python `b.startswith(a)`. -/
def pyStartsWith (s pat : String) : Bool := startsWithL pat.data s.data

/-- Python `pat in s` (substring test). -/
def pyIn (pat s : String) : Bool := containsL pat.data s.data

/-- Python `s.strip()` (whitespace removed from both ends). -/
def pyStrip (s : String) : String :=
  String.mk (((s.data.dropWhile Char.isWhitespace).reverse.dropWhile Char.isWhitespace).reverse)

/-- Python `s.strip(chars)`: remove any of the given characters from both ends. -/
def pyStripChars (cs : List Char) (s : String) : String :=
  String.mk (((s.data.dropWhile (cs.contains ·)).reverse.dropWhile (cs.contains ·)).reverse)

/-- Python slicing `s[:n]` (by code points). -/
def pyTake (s : String) (n : Nat) : String := String.mk (s.data.take n)

/-- Python `len(s)` (code points). -/
def pyLen (s : String) : Nat := s.data.length

/-- Python `s * n` for strings (used for `"  " * depth`). -/
def pyRepeat (s : String) : Nat → String
  | 0 => ""
  | n + 1 => s ++ pyRepeat s n

/-- Python dict insertion `m[k] = v`: replace in place if the key exists,
else append (Python dicts keep first-insertion order). -/
def dictInsert {α : Type} (m : List (String × α)) (k : String) (v : α) :
    List (String × α) :=
  match m with
  | [] => [(k, v)]
  | (k', v') :: rest =>
    if k' = k then (k, v) :: rest else (k', v') :: dictInsert rest k v

/-- Build a Python dict from a list of key/value pairs (later keys win). -/
def dictOf {α : Type} (l : List (String × α)) : List (String × α) :=
  l.foldl (fun m kv => dictInsert m kv.1 kv.2) []

/-- Python `m.get(k)` on an association list representing a dict. -/
def dictGet {α : Type} (m : List (String × α)) (k : String) : Option α :=
  match m with
  | [] => none
  | (k', v) :: rest => if k' = k then some v else dictGet rest k

/-! ### Data model

A flat DOM node record.  Raw nodes produced by `parse_dom` carry
`idx`/`depth`/`tag`/`attrs`/`text`/`selector`/`xpath`/`actions`/`label`/
`state`/`inlined`; filtered nodes produced by `_tree_to_flat` replace
`idx` by the hierarchical id `hid` and add `formLabel`.  A single
structure carries all fields; a field a given Python dict does not hold
carries the default value that `dict.get` would supply (`""`, `0`, `[]`,
`false`). -/

structure DNode where
  idx : Nat
  hid : String
  depth : Nat
  tag : String
  attrs : String
  text : String
  selector : String
  xpath : String
  actions : List String
  label : String
  formLabel : String
  state : List (String × String)
  inlined : Bool
  deriving DecidableEq

/-- A node record with every field at its `dict.get` default. -/
def DNode.default : DNode :=
  ⟨0, "", 0, "", "", "", "", "", [], "", "", [], false⟩

/-! ### `format_dom_tree` (dom_parser.py lines 392-424) -/

/-- One rendered line:
`{indent}[{hid}] {tag}{attrs}{action_str}{state_str}{form_label_str}{text}`. -/
def format_line (n : DNode) : String :=
  let indent := pyRepeat "  " n.depth
  let attrs := if n.attrs ≠ "" then "(" ++ n.attrs ++ ")" else ""
  let action_str :=
    if n.actions ≠ [] then " [" ++ String.intercalate "/" n.actions ++ "]" else ""
  let state_str :=
    if n.state ≠ [] then
      " \x7b" ++
        String.intercalate ", "
          (n.state.map fun kv =>
            if kv.2 = "true" then kv.1 else kv.1 ++ "=\"" ++ kv.2 ++ "\"") ++
        "\x7d"
    else ""
  let form_label_str := if n.formLabel ≠ "" then " «" ++ n.formLabel ++ "»" else ""
  let text := if n.text ≠ "" then ": " ++ n.text else ""
  indent ++ "[" ++ n.hid ++ "] " ++ n.tag ++ attrs ++ action_str ++ state_str ++
    form_label_str ++ text

/-- The `lines` list of `format_dom_tree`: inlined nodes are skipped. -/
def format_tree_lines : List DNode → List String
  | [] => []
  | n :: rest =>
    if n.inlined then format_tree_lines rest
    else format_line n :: format_tree_lines rest

/-- `format_dom_tree`: `"\n".join(lines)`. -/
def format_dom_tree (nodes : List DNode) : String :=
  String.intercalate "\n" (format_tree_lines nodes)

/-! ### `assemble_result` (dom_parser.py lines 427-462) -/

structure Stats where
  raw_html_chars : Nat
  raw_html_tokens : Nat
  tree_chars : Nat
  tree_tokens : Nat
  /-- Exact value of `len(tree) / max(html_len, 1)`; the Python `round(·, 3)`
  on the binary float is not modelled. -/
  compression_ratio : ℚ
  nodes_before_filter : Nat
  nodes_after_filter : Nat
  deriving DecidableEq

/-- An element of the `interactive` list. -/
structure IEntry where
  hid : String
  depth : Nat
  tag : String
  label : String
  selector : String
  xpath : String
  actions : List String
  state : List (String × String)
  deriving DecidableEq

structure Snapshot where
  tree : String
  xpath_map : List (String × String)
  node_map : List (String × String)
  interactive : List IEntry
  stats : Stats
  deriving DecidableEq

/-- The entry `assemble_result` builds for each filtered node
(`label` falls back to `text` via `n["label"] or n["text"]`). -/
def interactive_entry (n : DNode) : IEntry :=
  ⟨n.hid, n.depth, n.tag, if n.label ≠ "" then n.label else n.text,
    n.selector, n.xpath, n.actions, n.state⟩

/-- `assemble_result(dom_nodes, filtered_nodes, html_len)`. -/
def assemble_result (dom_nodes filtered_nodes : List DNode) (html_len : Nat) :
    Snapshot :=
  let tree := format_dom_tree filtered_nodes
  { tree := tree
    xpath_map := dictOf (filtered_nodes.map fun n => (n.hid, n.xpath))
    node_map := dictOf (filtered_nodes.map fun n => (n.hid, n.selector))
    interactive := filtered_nodes.map interactive_entry
    stats :=
      { raw_html_chars := html_len
        raw_html_tokens := html_len / 4
        tree_chars := pyLen tree
        tree_tokens := pyLen tree / 4
        compression_ratio := (pyLen tree : ℚ) / (max html_len 1 : ℚ)
        nodes_before_filter := dom_nodes.length
        nodes_after_filter := filtered_nodes.length } }

end Clawome

namespace Clawome

/-! ### Helper lemmas on dicts and rendered lines -/

theorem keys_dictInsert {α : Type} (m : List (String × α)) (k : String) (v : α)
    (k' : String) (h : k' ∈ (dictInsert m k v).map Prod.fst) :
    k' ∈ m.map Prod.fst ∨ k' = k := by
  induction m with
  | nil =>
    simp only [dictInsert, List.map_cons, List.map_nil, List.mem_singleton] at h
    exact Or.inr h
  | cons kv rest ih =>
    simp only [dictInsert] at h
    by_cases hk : kv.1 = k
    · rw [if_pos hk] at h
      simp only [List.map_cons, List.mem_cons] at h
      rcases h with h | h
      · exact Or.inr h
      · exact Or.inl (by simp only [List.map_cons, List.mem_cons]; exact Or.inr h)
    · rw [if_neg hk] at h
      simp only [List.map_cons, List.mem_cons] at h
      rcases h with h | h
      · exact Or.inl (by simp only [List.map_cons, List.mem_cons]; exact Or.inl h)
      · rcases ih h with h' | h'
        · exact Or.inl (by simp only [List.map_cons, List.mem_cons]; exact Or.inr h')
        · exact Or.inr h'

theorem keys_dictOf_aux {α : Type} (l : List (String × α))
    (acc : List (String × α)) (k : String)
    (h : k ∈ (l.foldl (fun m kv => dictInsert m kv.1 kv.2) acc).map Prod.fst) :
    k ∈ acc.map Prod.fst ∨ k ∈ l.map Prod.fst := by
  induction l generalizing acc with
  | nil => exact Or.inl h
  | cons kv rest ih =>
    simp only [List.foldl] at h
    rcases ih (dictInsert acc kv.1 kv.2) h with h' | h'
    · rcases keys_dictInsert acc kv.1 kv.2 k h' with h'' | h''
      · exact Or.inl h''
      · exact Or.inr (by simp [h''])
    · exact Or.inr (by simp at h' ⊢; exact Or.inr h')

/-- Every key of a built dict is a key of the input pair list. -/
theorem keys_dictOf {α : Type} (l : List (String × α)) (k : String)
    (h : k ∈ (dictOf l).map Prod.fst) : k ∈ l.map Prod.fst := by
  rcases keys_dictOf_aux l [] k h with h' | h'
  · simp at h'
  · exact h'

/-- The rendered lines are exactly the non-inlined nodes' lines, in order. -/
theorem format_tree_lines_eq (ns : List DNode) :
    format_tree_lines ns = (ns.filter fun n => !n.inlined).map format_line := by
  induction ns with
  | nil => rfl
  | cons n rest ih =>
    by_cases h : n.inlined <;>
      simp [format_tree_lines, List.filter, h, ih]

/-- A non-inlined node's line is among the rendered lines. -/
theorem format_line_mem (ns : List DNode) (n : DNode) (hmem : n ∈ ns)
    (hinl : n.inlined = false) : format_line n ∈ format_tree_lines ns := by
  rw [format_tree_lines_eq]
  exact List.mem_map_of_mem _ (List.mem_filter.mpr ⟨hmem, by simp [hinl]⟩)

/-- Every rendered line starts with `{indent}[{hid}] `. -/
theorem format_line_shape (n : DNode) :
    ∃ rest, format_line n =
      pyRepeat "  " n.depth ++ "[" ++ n.hid ++ "] " ++ rest := by
  refine ⟨n.tag ++ (if n.attrs ≠ "" then "(" ++ n.attrs ++ ")" else "") ++
      (if n.actions ≠ [] then
        " [" ++ String.intercalate "/" n.actions ++ "]" else "") ++
      (if n.state ≠ [] then
        " \x7b" ++
          String.intercalate ", "
            (n.state.map fun kv =>
              if kv.2 = "true" then kv.1 else kv.1 ++ "=\"" ++ kv.2 ++ "\"") ++
          "\x7d"
      else "") ++
      (if n.formLabel ≠ "" then " «" ++ n.formLabel ++ "»" else "") ++
      (if n.text ≠ "" then ": " ++ n.text else ""), ?_⟩
  simp [format_line, String.append_assoc]

/-! ### Claim C1 -/

/-- A filtered node with empty `actions` and non-empty text. -/
def c1node : DNode :=
  { DNode.default with hid := "1", tag := "p", text := "x" }

/-- **C1, counterexample.** `assemble_result` puts every filtered node into
`interactive`; the node `c1node` has an empty `actions` list and yet its
entry appears in `interactive`, so the claim "no node with empty actions
appears in `interactive`" is false. -/
theorem C1_counterexample :
    (assemble_result [] [c1node] 0).interactive =
      [⟨"1", 0, "p", "x", "", "", [], []⟩] ∧ c1node.actions = [] :=
  ⟨rfl, rfl⟩

/-- **C1, amended.** The `interactive` list of the snapshot built by
`assemble_result` contains an entry `{hid, depth, tag, label, selector,
xpath, actions, state}` (with `label` falling back to `text`) for *every*
filtered node, in order — not only for the nodes whose `actions` list is
non-empty; nodes with empty `actions` appear as well. -/
theorem C1_amended (dom_nodes ns : List DNode) (html_len : Nat) :
    (assemble_result dom_nodes ns html_len).interactive =
        ns.map interactive_entry ∧
    ∀ n ∈ ns, interactive_entry n ∈
        (assemble_result dom_nodes ns html_len).interactive := by
  refine ⟨rfl, fun n hn => ?_⟩
  exact List.mem_map_of_mem _ hn

/-- Witness for `C1_amended` at a concrete input. -/
theorem C1_amended_witness :
    interactive_entry c1node ∈ (assemble_result [] [c1node] 7).interactive :=
  (C1_amended [] [c1node] 7).2 c1node (by simp)

/-! ### Claim C2 -/

/-- An inlined filtered node (an `<a>` collapsed into its parent's text). -/
def c2node : DNode :=
  { DNode.default with
      hid := "1", tag := "a", selector := "#x", xpath := "/html/body/a",
      actions := ["click"], inlined := true }

/-- **C2, counterexample.** For the filtered list `[c2node]` (one node
marked `inlined=true`), the hid `"1"` keys `node_map`, yet
`format_dom_tree` renders no line at all (the tree text is empty), so the
hid is not the hid of any line of `tree`. -/
theorem C2_counterexample :
    (assemble_result [] [c2node] 0).node_map.map Prod.fst = ["1"] ∧
    format_dom_tree [c2node] = "" :=
  ⟨rfl, rfl⟩

/-- **C2, amended.** Every hid that keys `node_map` or `xpath_map` or
appears in an element of `interactive` is the hid of a node of the
filtered list, and every *non-inlined* filtered node contributes a line
of the rendered tree carrying its hid as `[hid]`; nodes marked
`inlined=true` are skipped by `format_dom_tree`, so their hids key the
maps without corresponding tree lines. -/
theorem C2_amended (dom_nodes ns : List DNode) (html_len : Nat) :
    (∀ k ∈ (assemble_result dom_nodes ns html_len).node_map.map Prod.fst,
        k ∈ ns.map DNode.hid) ∧
    (∀ k ∈ (assemble_result dom_nodes ns html_len).xpath_map.map Prod.fst,
        k ∈ ns.map DNode.hid) ∧
    (∀ e ∈ (assemble_result dom_nodes ns html_len).interactive,
        e.hid ∈ ns.map DNode.hid) ∧
    (∀ n ∈ ns, n.inlined = false →
        format_line n ∈ format_tree_lines ns ∧
        ∃ rest, format_line n =
          pyRepeat "  " n.depth ++ "[" ++ n.hid ++ "] " ++ rest) := by
  refine ⟨fun k hk => ?_, fun k hk => ?_, fun e he => ?_, fun n hn hinl => ?_⟩
  · have := keys_dictOf _ k hk
    simpa using this
  · have := keys_dictOf _ k hk
    simpa using this
  · simp only [assemble_result, List.mem_map] at he
    rcases he with ⟨n, hn, rfl⟩
    exact List.mem_map_of_mem _ hn
  · exact ⟨format_line_mem ns n hn hinl, format_line_shape n⟩

/-- Witness for `C2_amended` at a concrete input. -/
theorem C2_amended_witness :
    "1" ∈ [c1node].map DNode.hid ∧
    format_line c1node ∈ format_tree_lines [c1node] :=
  ⟨(C2_amended [] [c1node] 0).1 "1" (by decide),
   ((C2_amended [] [c1node] 0).2.2.2 c1node (by simp) rfl).1⟩

end Clawome

namespace Clawome

/-! ### `diff_dom` (dom_parser.py lines 501-630) -/

/-- A `{hid, tag, label, actions}` record of the `added`/`removed` lists. -/
structure Brief where
  hid : String
  tag : String
  label : String
  actions : List String
  deriving DecidableEq

/-- A `{hid, tag, label, field, before, after}` record of `changed`. -/
structure ChangeEntry where
  hid : String
  tag : String
  label : String
  field : String
  before : String
  after : String
  deriving DecidableEq

/-- `_build_map`: lookup by selector, nodes without one skipped. -/
def build_map (nodes : List DNode) : List (String × DNode) :=
  nodes.foldl (fun m n => if n.selector ≠ "" then dictInsert m n.selector n else m) []

/-- `_brief`. -/
def diff_brief (n : DNode) : Brief :=
  ⟨n.hid, n.tag,
    pyTake (if n.label ≠ "" then n.label else if n.text ≠ "" then n.text else "") 120,
    n.actions⟩

/-- Key list with first occurrences kept (models iterating a Python set
built from dict keys; the set's iteration order is unspecified, the
claims do not depend on it). -/
def dedupKeys : List String → List String
  | [] => []
  | k :: rest => if rest.contains k then dedupKeys rest else k :: dedupKeys rest

/-- The `changed` entries `diff_dom` emits for one selector key
(hid shift, text change, per-key state changes, actions change). -/
def changes_for (bn an : DNode) : List ChangeEntry :=
  (if bn.hid ≠ an.hid then
    [⟨an.hid, an.tag, pyTake (if an.label ≠ "" then an.label else "") 120,
      "hid", bn.hid, an.hid⟩]
  else []) ++
  (if bn.text ≠ an.text then
    [⟨an.hid, an.tag,
      pyTake (if an.label ≠ "" then an.label
        else if an.text ≠ "" then an.text else "") 120,
      "text", pyTake bn.text 80, pyTake an.text 80⟩]
  else []) ++
  ((dedupKeys (bn.state.map Prod.fst ++ an.state.map Prod.fst)).filterMap
    fun sk =>
      let bv := dictGet bn.state sk
      let av := dictGet an.state sk
      if bv ≠ av then
        some ⟨an.hid, an.tag, pyTake (if an.label ≠ "" then an.label else "") 120,
          "state." ++ sk, bv.getD "", av.getD ""⟩
      else none) ++
  (if bn.actions ≠ an.actions then
    [⟨an.hid, an.tag, pyTake (if an.label ≠ "" then an.label else "") 120,
      "actions", String.intercalate "/" bn.actions,
      String.intercalate "/" an.actions⟩]
  else [])

/-- The full (uncapped) `added_all` list of `diff_dom`. -/
def diff_added_all (before_nodes after_nodes : List DNode) : List Brief :=
  let bkeys := (build_map before_nodes).map Prod.fst
  let amap := build_map after_nodes
  ((amap.map Prod.fst).filter fun k => !bkeys.contains k).map
    fun k => diff_brief ((dictGet amap k).getD DNode.default)

/-- The full (uncapped) `removed_all` list of `diff_dom`. -/
def diff_removed_all (before_nodes after_nodes : List DNode) : List Brief :=
  let bmap := build_map before_nodes
  let akeys := (build_map after_nodes).map Prod.fst
  ((bmap.map Prod.fst).filter fun k => !akeys.contains k).map
    fun k => diff_brief ((dictGet bmap k).getD DNode.default)

/-- The full (uncapped) `changed_all` list of `diff_dom`. -/
def diff_changed_all (before_nodes after_nodes : List DNode) : List ChangeEntry :=
  let bmap := build_map before_nodes
  let amap := build_map after_nodes
  (((bmap.map Prod.fst).filter fun k => (amap.map Prod.fst).contains k).map
    fun k => changes_for ((dictGet bmap k).getD DNode.default)
      ((dictGet amap k).getD DNode.default)).flatten

structure DiffResult where
  has_changes : Bool
  summary : String
  added : List Brief
  removed : List Brief
  changed : List ChangeEntry
  deriving DecidableEq

/-- `diff_dom(before_nodes, after_nodes, max_items)`. -/
def diff_dom (before_nodes after_nodes : List DNode) (max_items : Nat) :
    DiffResult :=
  let added_all := diff_added_all before_nodes after_nodes
  let removed_all := diff_removed_all before_nodes after_nodes
  let changed_all := diff_changed_all before_nodes after_nodes
  let parts :=
    (if added_all ≠ [] then
      ["新增 " ++ toString added_all.length ++ " 个节点"] else []) ++
    (if removed_all ≠ [] then
      ["移除 " ++ toString removed_all.length ++ " 个节点"] else []) ++
    (if changed_all ≠ [] then
      [toString changed_all.length ++ " 个节点内容变化"] else [])
  { has_changes := !added_all.isEmpty || !removed_all.isEmpty || !changed_all.isEmpty
    summary := if parts ≠ [] then String.intercalate ", " parts else "无变化"
    added := added_all.take max_items
    removed := removed_all.take max_items
    changed := changed_all.take max_items }

/-! ### Claim C8 -/

theorem changes_for_self (n : DNode) : changes_for n n = [] := by
  simp only [changes_for, ne_eq, not_true_eq_false, if_false, ite_self]
  simp

theorem filter_not_contains_self (l : List String) :
    (l.filter fun k => !l.contains k) = [] := by
  rw [List.filter_eq_nil_iff]
  intro k hk
  simp [List.elem_eq_mem, hk]

/-- **C8.** Diffing a filtered node list against itself yields
`has_changes=false`, the summary "no changes", and empty
`added`/`removed`/`changed` lists. -/
theorem C8_diff_self (ns : List DNode) (max_items : Nat) :
    diff_dom ns ns max_items = ⟨false, "无变化", [], [], []⟩ := by
  have hadded : diff_added_all ns ns = [] := by
    simp only [diff_added_all, filter_not_contains_self, List.map_nil]
  have hremoved : diff_removed_all ns ns = [] := by
    simp only [diff_removed_all, filter_not_contains_self, List.map_nil]
  have hchanged : diff_changed_all ns ns = [] := by
    simp only [diff_changed_all]
    rw [List.flatten_eq_nil_iff]
    intro l hl
    simp only [List.mem_map] at hl
    rcases hl with ⟨k, _, rfl⟩
    exact changes_for_self _
  simp [diff_dom, hadded, hremoved, hchanged]

/-! ### Claim C10 -/

/-- **C10.** `diff_dom` computes `has_changes` and the numeric counts in
`summary` from the full uncapped `added_all`/`removed_all`/`changed_all`
lists, while the returned `added`/`removed`/`changed` lists are the
`max_items`-prefixes of those lists; hence each returned list has length
`min max_items (uncapped length)`, which is strictly smaller than the
uncapped count named in the summary whenever a category exceeds
`max_items`. -/
theorem C10_diff_caps (b a : List DNode) (max_items : Nat) :
    (diff_dom b a max_items).added = (diff_added_all b a).take max_items ∧
    (diff_dom b a max_items).removed = (diff_removed_all b a).take max_items ∧
    (diff_dom b a max_items).changed = (diff_changed_all b a).take max_items ∧
    (diff_dom b a max_items).added.length =
      min max_items (diff_added_all b a).length ∧
    (diff_dom b a max_items).removed.length =
      min max_items (diff_removed_all b a).length ∧
    (diff_dom b a max_items).changed.length =
      min max_items (diff_changed_all b a).length ∧
    (diff_dom b a max_items).has_changes =
      (!(diff_added_all b a).isEmpty || !(diff_removed_all b a).isEmpty ||
        !(diff_changed_all b a).isEmpty) ∧
    (diff_dom b a max_items).summary =
      (if ((if diff_added_all b a ≠ [] then
          ["新增 " ++ toString (diff_added_all b a).length ++ " 个节点"] else []) ++
        (if diff_removed_all b a ≠ [] then
          ["移除 " ++ toString (diff_removed_all b a).length ++ " 个节点"] else []) ++
        (if diff_changed_all b a ≠ [] then
          [toString (diff_changed_all b a).length ++ " 个节点内容变化"] else [])) ≠ []
      then String.intercalate ", "
        ((if diff_added_all b a ≠ [] then
          ["新增 " ++ toString (diff_added_all b a).length ++ " 个节点"] else []) ++
        (if diff_removed_all b a ≠ [] then
          ["移除 " ++ toString (diff_removed_all b a).length ++ " 个节点"] else []) ++
        (if diff_changed_all b a ≠ [] then
          [toString (diff_changed_all b a).length ++ " 个节点内容变化"] else []))
      else "无变化") := by
  refine ⟨rfl, rfl, rfl, ?_, ?_, ?_, rfl, rfl⟩ <;>
    simp [diff_dom, List.length_take]

end Clawome

namespace Clawome

/-! ### Default compressor (compressors/default.py)

Trees of nodes (`{**n, "children": [...]}` dicts) are embedded as the
mutually inductive `TNode`/`TList` so that every operation is
structurally recursive and kernel-computable. -/

mutual
inductive TNode where
  | mk : DNode → TList → TNode
  deriving DecidableEq
inductive TList where
  | nil : TList
  | cons : TNode → TList → TList
  deriving DecidableEq
end

def TNode.data : TNode → DNode
  | .mk d _ => d

def TNode.children : TNode → TList
  | .mk _ cs => cs

def TList.append : TList → TList → TList
  | .nil, l => l
  | .cons t r, l => .cons t (r.append l)

/-- Python `len(children)` (direct children only). -/
def TList.length : TList → Nat
  | .nil => 0
  | .cons _ r => 1 + r.length

/-- Python `children[:k]`. -/
def TList.take : Nat → TList → TList
  | 0, _ => .nil
  | _, .nil => .nil
  | n + 1, .cons t r => .cons t (TList.take n r)

/-! #### Regular expressions of default.py

`_RE_TRANSPARENT_ROLE = r',?\s*role="(?:none|presentation)"'` and
`_RE_ID_ATTR = r',?\s*id="[^"]*"'`, compiled to explicit matchers:
a matcher takes the character suffix at the candidate position and
returns the remainder after the match, if any. -/

/-- Match a literal, returning the remaining suffix. -/
def matchLit : List Char → List Char → Option (List Char)
  | [], l => some l
  | _ :: _, [] => none
  | a :: as_, b :: bs => if a = b then matchLit as_ bs else none

def matchRoleLit (l : List Char) : Option (List Char) :=
  match matchLit "role=\"none\"".data l with
  | some r => some r
  | none => matchLit "role=\"presentation\"".data l

def matchIdLit (l : List Char) : Option (List Char) :=
  match matchLit "id=\"".data l with
  | some r =>
    match r.dropWhile (· ≠ '"') with
    | '"' :: r' => some r'
    | _ => none
  | none => none

/-- `,?\s*` prefix handling: the greedy optional comma is tried first. -/
def matchCommaWs (lit : List Char → Option (List Char)) (l : List Char) :
    Option (List Char) :=
  match l with
  | ',' :: rest =>
    match lit (rest.dropWhile Char.isWhitespace) with
    | some r => some r
    | none => lit (l.dropWhile Char.isWhitespace)
  | _ => lit (l.dropWhile Char.isWhitespace)

def matchTransparentRole (l : List Char) : Option (List Char) :=
  matchCommaWs matchRoleLit l

def matchIdAttr (l : List Char) : Option (List Char) :=
  matchCommaWs matchIdLit l

/-- `regex.search`: does the pattern match at any position? -/
def reSearch (m : List Char → Option (List Char)) : List Char → Bool
  | [] => (m []).isSome
  | l@(_ :: rest) => (m l).isSome || reSearch m rest

/-- `regex.sub(pattern, "", s)`: delete all non-overlapping matches,
scanning left to right.  The fuel argument (always called with the
length of the list, an upper bound on the number of steps, as every
match of the two patterns above consumes at least one character) makes
the definition structurally recursive. -/
def reSub (m : List Char → Option (List Char)) : Nat → List Char → List Char
  | 0, l => l
  | _ + 1, [] => []
  | fuel + 1, l@(c :: rest) =>
    match m l with
    | some r => reSub m fuel r
    | none => c :: reSub m fuel rest

/-- `_meaningful_attrs`: strip transparent-role and id attributes, then
`strip(", ")`. -/
def meaningful_attrs (attrs : String) : String :=
  let s1 := reSub matchTransparentRole attrs.data.length attrs.data
  let s2 := reSub matchIdAttr s1.length s1
  pyStripChars [',', ' '] (String.mk s2)

def WRAPPER_TAGS : List String :=
  ["div", "span", "section", "article", "main",
   "header", "footer", "aside", "figure", "figcaption",
   "nav", "details", "summary", "hgroup",
   "center", "font", "big", "nobr", "marquee",
   "thead", "tbody", "tfoot", "colgroup"]

def POPUP_ROLES : List String := ["dialog", "alertdialog"]

/-- `_is_collapsible`. -/
def is_collapsible (d : DNode) : Bool :=
  if (dictGet d.state "selected").getD "" != "" then false
  else if pyIn "⟨" d.text && pyIn "⟩" d.text then false
  else if WRAPPER_TAGS.contains d.tag then true
  else if reSearch matchTransparentRole d.attrs.data then true
  else false

/-- `_children_text`: texts of the direct children that are non-empty. -/
def child_texts : TList → List String
  | .nil => []
  | .cons (.mk d _) rest => (if d.text ≠ "" then [d.text] else []) ++ child_texts rest

def children_text (cs : TList) : String :=
  String.intercalate " " (child_texts cs)

/-- `_text_overlap`. -/
def text_overlap (parent_text child_text : String) : Bool :=
  if parent_text == "" || child_text == "" then false
  else
    let p := pyStrip parent_text
    let c := pyStrip child_text
    if p == "" || c == "" then false
    else if p == c then true
    else
      let sl := if pyLen c ≤ pyLen p then (c, p) else (p, c)
      pyIn sl.1 sl.2 && decide (pyLen sl.1 ≥ 8) &&
        decide (2 * pyLen sl.1 > pyLen sl.2)

/-- The overlap-pruning pass of `_simplify`: clear the text of each
(already simplified) child without actions whose text overlaps the
parent's. -/
def clear_overlap (ptext : String) : TList → TList
  | .nil => .nil
  | .cons (.mk d cs) rest =>
    .cons
      (.mk
        (if d.text != "" && d.actions.isEmpty && text_overlap ptext d.text
         then { d with text := "" } else d) cs)
      (clear_overlap ptext rest)

mutual
/-- The contribution of one node to the `_simplify` result list
(zero, one, or several nodes). -/
def simplify_node : TNode → TList
  | .mk d cs₀ =>
    let cs := simplify_list cs₀
    let collapsible := is_collapsible d
    let n_children := cs.length
    let ct := children_text cs
    let node_text :=
      if d.text != "" && n_children != 0 && ct != "" &&
          (d.text == ct || pyStartsWith ct d.text ||
            (pyStartsWith d.text ct && decide (10 * pyLen ct > 8 * pyLen d.text)))
      then "" else d.text
    let cs' :=
      if node_text != "" && n_children != 0 then clear_overlap node_text cs else cs
    let has_content := node_text != "" || meaningful_attrs d.attrs != ""
    if collapsible && !has_content && n_children == 0 then .nil
    else if collapsible && !has_content && n_children == 1 then cs'
    else if collapsible && !has_content then cs'
    else .cons (.mk { d with text := node_text } cs') .nil
/-- `_simplify` over a sibling list. -/
def simplify_list : TList → TList
  | .nil => .nil
  | .cons t rest => (simplify_node t).append (simplify_list rest)
end

/-- `_is_popup`. -/
def is_popup (d : DNode) : Bool :=
  POPUP_ROLES.any (fun role => pyIn ("role=\"" ++ role ++ "\"") d.attrs) ||
  (pyIn "-" d.tag && pyIn "dialog" (String.mk (d.tag.data.map Char.toLower)))

mutual
/-- `_count_nodes` of a single subtree. -/
def count_node : TNode → Nat
  | .mk _ cs => 1 + count_list cs
/-- `_count_nodes`. -/
def count_list : TList → Nat
  | .nil => 0
  | .cons t r => count_node t + count_list r
end

mutual
/-- `_collapse_popups` on one node. -/
def collapse_popups_node : TNode → TNode
  | .mk d cs =>
    if is_popup d && !(cs == .nil) then
      .mk { d with text := "··· " ++ toString (count_list cs) ++ " children" } .nil
    else .mk d (collapse_popups_list cs)
/-- `_collapse_popups`. -/
def collapse_popups_list : TList → TList
  | .nil => .nil
  | .cons t rest => .cons (collapse_popups_node t) (collapse_popups_list rest)
end

mutual
/-- `_has_interactive` on one node. -/
def has_interactive_node : TNode → Bool
  | .mk d cs => !d.actions.isEmpty || has_interactive_list cs
def has_interactive_list : TList → Bool
  | .nil => false
  | .cons t rest => has_interactive_node t || has_interactive_list rest
end

/-- Number of direct children containing an interactive descendant. -/
def interactive_count : TList → Nat
  | .nil => 0
  | .cons t rest => (if has_interactive_node t then 1 else 0) + interactive_count rest

/-- Number of direct children carrying a given tag (specification-level
counterpart of the `tag_freq` dictionary). -/
def count_tag (tag : String) : TList → Nat
  | .nil => 0
  | .cons (.mk d _) rest => (if d.tag = tag then 1 else 0) + count_tag tag rest

/-- Increment a counting dict entry (append on first occurrence). -/
def bump (m : List (String × Nat)) (k : String) : List (String × Nat) :=
  match m with
  | [] => [(k, 1)]
  | (k', c) :: rest => if k' = k then (k', c + 1) :: rest else (k', c) :: bump rest k

/-- The `tag_freq` dictionary of `_truncate_long_lists`. -/
def tag_freq_go : TList → List (String × Nat) → List (String × Nat)
  | .nil, acc => acc
  | .cons (.mk d _) rest, acc => tag_freq_go rest (bump acc d.tag)

/-- `max(tag_freq, key=tag_freq.get)`: the first key attaining the
maximal count (Python `max` keeps the first maximal element). -/
def arg_max_go : List (String × Nat) → String × Nat → String × Nat
  | [], best => best
  | (k, c) :: rest, best => arg_max_go rest (if c > best.2 then (k, c) else best)

def arg_max : List (String × Nat) → String × Nat
  | [] => ("", 0)
  | (k, c) :: rest => arg_max_go rest (k, c)

/-- The synthetic placeholder node appended by `_truncate_long_lists`
(the dict holds no `hid`/`label`/`formLabel`/`inlined` keys). -/
def placeholder_node (total show_head : Nat) : TNode :=
  .mk
    ⟨0, "", 0, "…", "",
      "+" ++ toString ((total : Int) - (show_head : Int)) ++ " more (" ++
        toString total ++ " total)",
      "", "", [], "", "", [], false⟩
    .nil

/-- The per-node truncation step of `_truncate_long_lists`, applied to a
node's (already recursively processed) child list.  The Python float
thresholds `tag_freq[top] < n * 0.7` and `interactive_count > n * 0.3`
are embedded exactly as `10 * top < 7 * n` and `10 * ic > 3 * n`. -/
def truncate_children (max_items show_head : Nat) (children : TList) : TList :=
  let n := children.length
  if n ≤ max_items then children
  else
    let freq := tag_freq_go children []
    let top := arg_max freq
    if 10 * top.2 < 7 * n then children
    else if 10 * interactive_count children > 3 * n then children
    else (children.take show_head).append (.cons (placeholder_node n show_head) .nil)

mutual
/-- `_truncate_long_lists` on one node: recurse into the children, then
truncate the child list; the node itself is always kept. -/
def truncate_node (max_items show_head : Nat) : TNode → TNode
  | .mk d cs =>
    .mk d (truncate_children max_items show_head (truncate_list max_items show_head cs))
/-- `_truncate_long_lists` (the root list itself is never truncated). -/
def truncate_list (max_items show_head : Nat) : TList → TList
  | .nil => .nil
  | .cons t rest =>
    .cons (truncate_node max_items show_head t) (truncate_list max_items show_head rest)
end

mutual
/-- `_prune_empty_leaves` on one node (zero or one surviving node). -/
def prune_node : TNode → TList
  | .mk d cs₀ =>
    let cs := prune_list cs₀
    if cs == .nil && pyStrip d.text == "" && d.actions.isEmpty &&
        meaningful_attrs d.attrs == ""
    then .nil else .cons (.mk d cs) .nil
/-- `_prune_empty_leaves`. -/
def prune_list : TList → TList
  | .nil => .nil
  | .cons t rest => (prune_node t).append (prune_list rest)
end

/-! #### `_flat_to_tree` / `_tree_to_flat` -/

/-- A stack entry of `_flat_to_tree`: the node's depth and data together
with the children accumulated so far (the Python code attaches children
through mutable references; here a frame's node is materialised when the
frame is popped). -/
structure Frame where
  depth : Nat
  data : DNode
  children : TList
  deriving DecidableEq

/-- Close a popped frame chain bottom-up: the closed subtree `t` is
appended to the children of the next popped frame, and so on. -/
def closeChain : TNode → List Frame → TNode
  | t, [] => t
  | t, f :: fs => closeChain (.mk f.data (f.children.append (.cons t .nil))) fs

/-- One iteration of the `_flat_to_tree` loop: pop all frames whose
depth is `≥` the new node's depth (attaching each popped subtree to the
frame below it, or to the roots), then push a frame for the new node. -/
def flat_to_tree_step (st : List Frame × TList) (n : DNode) : List Frame × TList :=
  let seg := st.1.takeWhile fun f => n.depth ≤ f.depth
  let rest := st.1.dropWhile fun f => n.depth ≤ f.depth
  match seg with
  | [] => (⟨n.depth, n, .nil⟩ :: rest, st.2)
  | f :: fs =>
    let t := closeChain (.mk f.data f.children) fs
    match rest with
    | [] => ([⟨n.depth, n, .nil⟩], st.2.append (.cons t .nil))
    | g :: gs =>
      (⟨n.depth, n, .nil⟩ :: ⟨g.depth, g.data, g.children.append (.cons t .nil)⟩ :: gs,
        st.2)

/-- `_flat_to_tree`: fold the stack step over the flat list, then close
the frames still on the stack (the Python original needs no final pass
because it attaches nodes by mutable reference at push time). -/
def flat_to_tree (nodes : List DNode) : TList :=
  match nodes.foldl flat_to_tree_step ([], TList.nil) with
  | ([], roots) => roots
  | (f :: fs, roots) =>
    roots.append (.cons (closeChain (.mk f.data f.children) fs) .nil)

mutual
/-- `_tree_to_flat`, one node given its assigned `hid`. -/
def tree_to_flat_node : TNode → Nat → String → List DNode
  | .mk d cs, depth, hid =>
    ⟨0, hid, depth, d.tag, d.attrs, d.text, d.selector, d.xpath, d.actions,
      d.label, d.formLabel, d.state, d.inlined⟩ ::
      tree_to_flat_go cs (depth + 1) (hid ++ ".") 1
/-- `_tree_to_flat`, walking a sibling list with 1-based numbering. -/
def tree_to_flat_go : TList → Nat → String → Nat → List DNode
  | .nil, _, _, _ => []
  | .cons t rest, depth, pre, i =>
    let hid := if pre ≠ "" then pre ++ toString i else toString i
    tree_to_flat_node t depth hid ++ tree_to_flat_go rest depth pre (i + 1)
end

/-- `_tree_to_flat`. -/
def tree_to_flat (roots : TList) : List DNode :=
  tree_to_flat_go roots 0 "" 1

/-- The `_simplify` fixed-point loop of `process`: up to 10 passes,
stopping as soon as a pass leaves the node count unchanged. -/
def simplify_loop : Nat → TList → TList
  | 0, tree => tree
  | fuel + 1, tree =>
    let before := count_list tree
    let tree' := simplify_list tree
    if count_list tree' = before then tree' else simplify_loop fuel tree'

/-- `process` of the default compressor. -/
def process (dom_nodes : List DNode) : List DNode :=
  let t0 := flat_to_tree dom_nodes
  let t1 := simplify_loop 10 t0
  let t2 := collapse_popups_list t1
  let t3 := truncate_list 50 10 t2
  let t4 := prune_list t3
  tree_to_flat t4

/-! ### `run` of compressor_manager.py (lines 175-200)

URL-based script selection, module loading and the
one-versus-two-argument signature dispatch are filesystem/reflection
concerns abstracted away: the selected script's `process` is passed as a
function returning `Except` (a raised exception becomes `.error`).  The
`try/except` fallback structure is embedded as stated. -/

def run_compressor (script_process : List DNode → Except String (List DNode))
    (dom_nodes : List DNode) (html_len : Nat) : Snapshot :=
  match script_process dom_nodes with
  | .ok filtered => assemble_result dom_nodes filtered html_len
  | .error _ => assemble_result dom_nodes (process dom_nodes) html_len

end Clawome

namespace Clawome

/-! ### Pre-order linearization of trees, and the `flat → tree` invariant -/

mutual
/-- Pre-order data of one subtree. -/
def preN : TNode → List DNode
  | .mk d cs => d :: preL cs
/-- Pre-order data of a forest. -/
def preL : TList → List DNode
  | .nil => []
  | .cons t r => preN t ++ preL r
end

/-- Linearization of the `_flat_to_tree` stack (top of the stack last,
since deeper frames will be attached below the earlier ones). -/
def stackLin : List Frame → List DNode
  | [] => []
  | f :: fs => stackLin fs ++ (f.data :: preL f.children)

theorem preL_append : ∀ (a b : TList), preL (a.append b) = preL a ++ preL b
  | .nil, b => by simp [TList.append, preL]
  | .cons t r, b => by
    simp only [TList.append, preL, preL_append r b, List.append_assoc]

theorem stackLin_append (a b : List Frame) :
    stackLin (a ++ b) = stackLin b ++ stackLin a := by
  induction a with
  | nil => simp [stackLin]
  | cons f fs ih => simp [stackLin, ih, List.append_assoc]

theorem preN_closeChain : ∀ (fs : List Frame) (t : TNode),
    preN (closeChain t fs) = stackLin fs ++ preN t
  | [], t => by simp [closeChain, stackLin]
  | f :: fs, t => by
    rw [closeChain, preN_closeChain fs]
    simp [preN, preL_append, preL, stackLin, List.append_assoc]

theorem step_lin (st : List Frame × TList) (n : DNode) :
    preL (flat_to_tree_step st n).2 ++ stackLin (flat_to_tree_step st n).1 =
      preL st.2 ++ stackLin st.1 ++ [n] := by
  have hsplit :
      st.1.takeWhile (fun f => decide (n.depth ≤ f.depth)) ++
        st.1.dropWhile (fun f => decide (n.depth ≤ f.depth)) = st.1 :=
    List.takeWhile_append_dropWhile _ _
  simp only [flat_to_tree_step]
  split
  next rest heq =>
    rw [heq] at hsplit
    simp only [List.nil_append] at hsplit
    rw [hsplit]
    simp [stackLin, preL, List.append_assoc]
  next f fs heq =>
    split
    next heq2 =>
      rw [heq, heq2, List.append_nil] at hsplit
      rw [← hsplit]
      simp [stackLin, preL, preN, preL_append, preN_closeChain, List.append_assoc]
    next g gs heq2 =>
      rw [heq, heq2] at hsplit
      rw [← hsplit]
      simp [stackLin, stackLin_append, preL, preN, preL_append, preN_closeChain,
        List.append_assoc]

theorem fold_lin : ∀ (ns : List DNode) (st : List Frame × TList),
    preL (ns.foldl flat_to_tree_step st).2 ++
        stackLin (ns.foldl flat_to_tree_step st).1 =
      preL st.2 ++ stackLin st.1 ++ ns
  | [], st => by simp
  | n :: ns, st => by
    rw [List.foldl_cons, fold_lin ns]
    rw [step_lin]
    simp [List.append_assoc]

/-- `_flat_to_tree` loses no node and keeps the input order: its
pre-order data is the input list. -/
theorem preL_flat_to_tree (ns : List DNode) : preL (flat_to_tree ns) = ns := by
  have h := fold_lin ns ([], TList.nil)
  simp only [preL, stackLin, List.append_nil, List.nil_append] at h
  unfold flat_to_tree
  split
  next heq =>
    rw [heq] at h
    simpa [stackLin] using h
  next f fs heq =>
    rw [heq] at h
    simp only [stackLin] at h
    rw [preL_append]
    simpa [preL, preN_closeChain, List.append_assoc] using h

/-- The fields of a node preserved by the `flat → tree → flat`
round-trip as claimed by the specification. -/
def projC4 (n : DNode) :
    String × String × String × List String × List (String × String) ×
      String × String :=
  (n.tag, n.text, n.attrs, n.actions, n.state, n.selector, n.xpath)

mutual
theorem tree_to_flat_node_proj : ∀ (t : TNode) (depth : Nat) (hid : String),
    (tree_to_flat_node t depth hid).map projC4 = (preN t).map projC4
  | .mk d cs, depth, hid => by
    simp only [tree_to_flat_node, preN, List.map_cons,
      tree_to_flat_go_proj cs (depth + 1) (hid ++ ".") 1]
    rfl
theorem tree_to_flat_go_proj : ∀ (l : TList) (depth : Nat) (pre : String) (i : Nat),
    (tree_to_flat_go l depth pre i).map projC4 = (preL l).map projC4
  | .nil, _, _, _ => by simp [tree_to_flat_go, preL]
  | .cons t rest, depth, pre, i => by
    simp only [tree_to_flat_go, preL, List.map_append,
      tree_to_flat_node_proj t, tree_to_flat_go_proj rest depth pre (i + 1)]
end

/-! ### Claim C4 -/

/-- **C4.** Composing `_flat_to_tree` with `_tree_to_flat` yields a list
in which every node survives with its original `tag`, `text`, `attrs`,
`actions`, `state`, `selector` and `xpath` values unchanged (the two
lists have equal projections on those seven fields, position by
position). -/
theorem C4_roundtrip (ns : List DNode) :
    (tree_to_flat (flat_to_tree ns)).map projC4 = ns.map projC4 := by
  rw [tree_to_flat, tree_to_flat_go_proj, preL_flat_to_tree]

end Clawome

namespace Clawome

/-! ### Node-count monotonicity of the pipeline stages -/

theorem count_list_append : ∀ (a b : TList),
    count_list (a.append b) = count_list a + count_list b
  | .nil, b => by simp [TList.append, count_list]
  | .cons t r, b => by
    simp only [TList.append, count_list, count_list_append r b]
    omega

theorem count_node_pos : ∀ t : TNode, 1 ≤ count_node t
  | .mk d cs => by simp only [count_node]; omega

mutual
theorem count_node_preN : ∀ t : TNode, count_node t = (preN t).length
  | .mk d cs => by
    simp only [count_node, preN, List.length_cons, count_list_preL cs]
    omega
theorem count_list_preL : ∀ l : TList, count_list l = (preL l).length
  | .nil => by simp [count_list, preL]
  | .cons t r => by
    simp only [count_list, preL, List.length_append, count_node_preN t,
      count_list_preL r]
end

theorem tree_to_flat_length (l : TList) : (tree_to_flat l).length = count_list l := by
  have h := congrArg List.length (tree_to_flat_go_proj l 0 "" 1)
  simpa [tree_to_flat, count_list_preL l] using h

theorem count_clear_overlap : ∀ (p : String) (l : TList),
    count_list (clear_overlap p l) = count_list l
  | _, .nil => rfl
  | p, .cons (.mk d cs) rest => by
    simp only [clear_overlap, count_list, count_node, count_clear_overlap p rest]

theorem count_if_clear (s : String) (l : TList) :
    count_list (if (s != "" && l.length != 0) = true then clear_overlap s l else l) =
      count_list l := by
  split
  · rw [count_clear_overlap]
  · rfl

mutual
theorem count_simplify_node : ∀ t : TNode, count_list (simplify_node t) ≤ count_node t
  | .mk d cs₀ => by
    have ih := count_simplify_list cs₀
    have hc1 := count_clear_overlap "" (simplify_list cs₀)
    have hc2 := count_clear_overlap d.text (simplify_list cs₀)
    simp only [simplify_node, count_node, count_if_clear]
    split_ifs <;> (try simp only [count_list, count_node]) <;> omega
theorem count_simplify_list : ∀ l : TList, count_list (simplify_list l) ≤ count_list l
  | .nil => le_refl _
  | .cons t rest => by
    have h1 := count_simplify_node t
    have h2 := count_simplify_list rest
    simp only [simplify_list, count_list, count_list_append]
    omega
end

theorem count_simplify_loop : ∀ (fuel : Nat) (l : TList),
    count_list (simplify_loop fuel l) ≤ count_list l
  | 0, l => le_refl _
  | fuel + 1, l => by
    simp only [simplify_loop]
    split
    next h => exact le_of_eq h
    next h => exact le_trans (count_simplify_loop fuel _) (count_simplify_list l)

mutual
theorem count_collapse_node : ∀ t : TNode,
    count_node (collapse_popups_node t) ≤ count_node t
  | .mk d cs => by
    have ih := count_collapse_list cs
    rw [collapse_popups_node]
    split
    · simp only [count_node, count_list]
      omega
    · simp only [count_node]
      omega
theorem count_collapse_list : ∀ l : TList,
    count_list (collapse_popups_list l) ≤ count_list l
  | .nil => le_refl _
  | .cons t rest => by
    have h1 := count_collapse_node t
    have h2 := count_collapse_list rest
    simp only [collapse_popups_list, count_list]
    omega
end

theorem length_le_count : ∀ l : TList, l.length ≤ count_list l
  | .nil => le_refl _
  | .cons t rest => by
    have h1 := count_node_pos t
    have h2 := length_le_count rest
    simp only [TList.length, count_list]
    omega

theorem count_take_le : ∀ (k : Nat) (l : TList),
    count_list (TList.take k l) + (l.length - k) ≤ count_list l
  | 0, l => by
    have := length_le_count l
    simp only [TList.take, count_list]
    omega
  | k + 1, .nil => by simp [TList.take, count_list, TList.length]
  | k + 1, .cons t rest => by
    have h1 := count_take_le k rest
    simp only [TList.take, count_list, TList.length]
    omega

theorem count_truncate_children (mi sh : Nat) (h : sh ≤ mi) (l : TList) :
    count_list (truncate_children mi sh l) ≤ count_list l := by
  simp only [truncate_children]
  split
  · exact le_refl _
  next hn =>
    split
    · exact le_refl _
    · split
      · exact le_refl _
      · rw [count_list_append]
        have h1 := count_take_le sh l
        simp only [count_list, count_node, placeholder_node]
        omega

mutual
theorem count_truncate_node : ∀ (mi sh : Nat), sh ≤ mi → ∀ t : TNode,
    count_node (truncate_node mi sh t) ≤ count_node t
  | mi, sh, h, .mk d cs => by
    have ih := count_truncate_list mi sh h cs
    have h2 := count_truncate_children mi sh h (truncate_list mi sh cs)
    simp only [truncate_node, count_node]
    omega
theorem count_truncate_list : ∀ (mi sh : Nat), sh ≤ mi → ∀ l : TList,
    count_list (truncate_list mi sh l) ≤ count_list l
  | _, _, _, .nil => le_refl _
  | mi, sh, h, .cons t rest => by
    have h1 := count_truncate_node mi sh h t
    have h2 := count_truncate_list mi sh h rest
    simp only [truncate_list, count_list]
    omega
end

mutual
theorem count_prune_node : ∀ t : TNode, count_list (prune_node t) ≤ count_node t
  | .mk d cs => by
    have ih := count_prune_list cs
    simp only [prune_node, count_node]
    split
    · simp only [count_list]
      omega
    · simp only [count_list, count_node]
      omega
theorem count_prune_list : ∀ l : TList, count_list (prune_list l) ≤ count_list l
  | .nil => le_refl _
  | .cons t rest => by
    have h1 := count_prune_node t
    have h2 := count_prune_list rest
    simp only [prune_list, count_list, count_list_append]
    omega
end

/-- The whole default pipeline never increases the node count. -/
theorem process_length_le (ns : List DNode) : (process ns).length ≤ ns.length := by
  have h0 : count_list (flat_to_tree ns) = ns.length := by
    rw [count_list_preL, preL_flat_to_tree]
  have h1 := count_simplify_loop 10 (flat_to_tree ns)
  have h2 := count_collapse_list (simplify_loop 10 (flat_to_tree ns))
  have h3 := count_truncate_list 50 10 (by omega)
    (collapse_popups_list (simplify_loop 10 (flat_to_tree ns)))
  have h4 := count_prune_list
    (truncate_list 50 10 (collapse_popups_list (simplify_loop 10 (flat_to_tree ns))))
  simp only [process, tree_to_flat_length]
  omega

end Clawome

namespace Clawome

/-! ### Claim C5 -/

/-- A parent whose text strictly extends its wrapper child's text. -/
def c5p : DNode :=
  { DNode.default with idx := 1, depth := 0, tag := "p", text := "hello world foo" }

/-- A `div` wrapper whose text overlaps the parent's. -/
def c5c : DNode :=
  { DNode.default with idx := 2, depth := 1, tag := "div", text := "hello world" }

/-- A grandchild with unrelated text. -/
def c5d : DNode :=
  { DNode.default with idx := 3, depth := 2, tag := "p", text := "unrelated content here" }

def c5ex : List DNode := [c5p, c5c, c5d]

/-- The first `process` run on `c5ex`: overlap pruning clears the `div`
wrapper's text, but the count-based fixed-point loop stops before the now
collapsible wrapper is removed. -/
def c5mid : List DNode :=
  [⟨0, "1", 0, "p", "", "hello world foo", "", "", [], "", "", [], false⟩,
   ⟨0, "1.1", 1, "div", "", "", "", "", [], "", "", [], false⟩,
   ⟨0, "1.1.1", 2, "p", "", "unrelated content here", "", "", [], "", "", [], false⟩]

set_option maxHeartbeats 1600000 in
/-- **C5, counterexample.** Running the default compressor's `process` a
second time on its own output does *not* always preserve the node count:
on `c5ex` the first run returns 3 nodes (the overlap pruning of
`_simplify` clears the wrapper's text, and the loop — which only watches
the node count — stops), while the second run collapses the now
text-less `div` wrapper, returning 2 nodes. -/
theorem C5_counterexample :
    (process c5ex).length = 3 ∧ (process (process c5ex)).length = 2 := by
  have h : process c5ex = c5mid := by decide
  refine ⟨by rw [h]; rfl, ?_⟩
  rw [h]
  decide

/-- **C5, amended.** Running `process` a second time on its own output
yields a list with *at most* as many nodes as the first output (every
pipeline stage is non-increasing in node count), but not necessarily the
same number: `_simplify`'s fixed point is only by node count per pass,
and text clearing can re-enable collapses that only a later run
performs. -/
theorem C5_amended (ns : List DNode) :
    (process (process ns)).length ≤ (process ns).length :=
  process_length_le (process ns)

/-! ### Claim C7: `_truncate_long_lists` -/

def lookupNat (m : List (String × Nat)) (k : String) : Nat :=
  (dictGet m k).getD 0

theorem bump_lookup (m : List (String × Nat)) (k k' : String) :
    lookupNat (bump m k) k' = lookupNat m k' + (if k' = k then 1 else 0) := by
  induction m with
  | nil =>
    simp only [bump, lookupNat, dictGet]
    by_cases h : k = k'
    · subst h
      simp
    · rw [if_neg h, if_neg (fun he => h he.symm)]
      simp
  | cons kv rest ih =>
    rcases kv with ⟨a, c⟩
    simp only [bump]
    by_cases hak : a = k
    · subst hak
      rw [if_pos rfl]
      simp only [lookupNat, dictGet]
      by_cases h : a = k'
      · subst h
        simp
      · rw [if_neg h, if_neg h, if_neg (fun he => h he.symm)]
        omega
    · rw [if_neg hak]
      simp only [lookupNat, dictGet]
      by_cases hak' : a = k'
      · rw [if_pos hak', if_pos hak']
        rw [if_neg (fun he => hak (by rw [hak', he]))]
        omega
      · rw [if_neg hak', if_neg hak']
        simpa only [lookupNat] using ih

theorem tag_freq_lookup : ∀ (l : TList) (acc : List (String × Nat)) (k : String),
    lookupNat (tag_freq_go l acc) k = lookupNat acc k + count_tag k l
  | .nil, acc, k => by simp [tag_freq_go, count_tag]
  | .cons (.mk d _) rest, acc, k => by
    rw [tag_freq_go, tag_freq_lookup rest, bump_lookup]
    simp only [count_tag]
    by_cases h : k = d.tag
    · subst h
      simp
      omega
    · rw [if_neg h, if_neg (Ne.symm h)]
      omega

theorem bump_ne_nil (m : List (String × Nat)) (k : String) : bump m k ≠ [] := by
  cases m with
  | nil => simp [bump]
  | cons kv rest =>
    rcases kv with ⟨a, c⟩
    by_cases h : a = k <;> simp [bump, h]

theorem tag_freq_go_ne_nil : ∀ (l : TList) (acc : List (String × Nat)),
    acc ≠ [] → tag_freq_go l acc ≠ []
  | .nil, _, h => h
  | .cons (.mk d _) rest, acc, _ =>
    tag_freq_go_ne_nil rest (bump acc d.tag) (bump_ne_nil acc d.tag)

theorem keys_bump : ∀ (m : List (String × Nat)) (k : String),
    (bump m k).map Prod.fst = m.map Prod.fst ∨
    ((bump m k).map Prod.fst = m.map Prod.fst ++ [k] ∧ k ∉ m.map Prod.fst)
  | [], k => Or.inr (by simp [bump])
  | (a, c) :: rest, k => by
    by_cases h : a = k
    · exact Or.inl (by simp [bump, h])
    · rcases keys_bump rest k with h' | ⟨h', hk⟩
      · exact Or.inl (by simp [bump, if_neg h, h'])
      · refine Or.inr ⟨by simp [bump, if_neg h, h'], ?_⟩
        simp only [List.map_cons, List.mem_cons]
        rintro (he | he)
        · exact h he.symm
        · exact hk he

theorem nodup_bump (m : List (String × Nat)) (k : String)
    (h : (m.map Prod.fst).Nodup) : ((bump m k).map Prod.fst).Nodup := by
  rcases keys_bump m k with h' | ⟨h', hk⟩
  · rw [h']
    exact h
  · rw [h', List.nodup_append]
    refine ⟨h, List.nodup_singleton _, ?_⟩
    intro a ha hb
    simp only [List.mem_singleton] at hb
    subst hb
    exact hk ha

theorem nodup_tag_freq : ∀ (l : TList) (acc : List (String × Nat)),
    (acc.map Prod.fst).Nodup → ((tag_freq_go l acc).map Prod.fst).Nodup
  | .nil, _, h => h
  | .cons (.mk d _) rest, acc, h =>
    nodup_tag_freq rest (bump acc d.tag) (nodup_bump acc d.tag h)

theorem dictGet_of_mem_nodup {α : Type} :
    ∀ (m : List (String × α)) (k : String) (c : α),
      (m.map Prod.fst).Nodup → (k, c) ∈ m → dictGet m k = some c
  | [], _, _, _, h => by simp at h
  | (a, v) :: rest, k, c, hnd, hmem => by
    simp only [List.map_cons, List.nodup_cons] at hnd
    rcases List.mem_cons.mp hmem with h | h
    · have h1 : k = a := congrArg Prod.fst h
      have h2 : c = v := congrArg Prod.snd h
      subst h1
      subst h2
      simp [dictGet]
    · have hka : a ≠ k := by
        intro he
        subst he
        exact hnd.1 (List.mem_map_of_mem Prod.fst h)
      rw [dictGet, if_neg hka]
      exact dictGet_of_mem_nodup rest k c hnd.2 h

theorem mem_of_dictGet {α : Type} :
    ∀ (m : List (String × α)) (k : String) (c : α),
      dictGet m k = some c → (k, c) ∈ m
  | [], k, c, h => by simp [dictGet] at h
  | (a, v) :: rest, k, c, h => by
    rw [dictGet] at h
    split at h
    next ha =>
      injection h with h
      subst ha
      subst h
      exact List.mem_cons_self ..
    next ha => exact List.mem_cons_of_mem _ (mem_of_dictGet rest k c h)

theorem arg_max_go_ge_init : ∀ (m : List (String × Nat)) (best : String × Nat),
    best.2 ≤ (arg_max_go m best).2
  | [], best => le_refl _
  | (k, c) :: rest, best => by
    rw [arg_max_go]
    split
    · exact le_trans (le_of_lt (by assumption)) (arg_max_go_ge_init rest _)
    · exact arg_max_go_ge_init rest best

theorem arg_max_go_ge_mem : ∀ (m : List (String × Nat)) (best p : String × Nat),
    p ∈ m → p.2 ≤ (arg_max_go m best).2
  | [], _, _, h => by simp at h
  | (k, c) :: rest, best, p, h => by
    rcases List.mem_cons.mp h with h | h
    · subst h
      rw [arg_max_go]
      split
      · exact arg_max_go_ge_init rest _
      · exact le_trans (by simpa using ‹¬c > best.2›) (arg_max_go_ge_init rest best)
    · rw [arg_max_go]
      exact arg_max_go_ge_mem rest _ p h

theorem arg_max_go_mem : ∀ (m : List (String × Nat)) (best : String × Nat),
    arg_max_go m best = best ∨ arg_max_go m best ∈ m
  | [], _ => Or.inl rfl
  | (k, c) :: rest, best => by
    rw [arg_max_go]
    split
    · rcases arg_max_go_mem rest (k, c) with h | h
      · refine Or.inr ?_
        rw [h]
        exact List.mem_cons_self ..
      · exact Or.inr (List.mem_cons_of_mem _ h)
    · rcases arg_max_go_mem rest best with h | h
      · exact Or.inl h
      · exact Or.inr (List.mem_cons_of_mem _ h)

theorem arg_max_ge : ∀ (m : List (String × Nat)) (p : String × Nat),
    p ∈ m → p.2 ≤ (arg_max m).2
  | [], p, hp => by simp at hp
  | (k, c) :: rest, p, hp => by
    rcases List.mem_cons.mp hp with h | h
    · subst h
      exact arg_max_go_ge_init rest _
    · exact arg_max_go_ge_mem rest _ p h

theorem arg_max_mem : ∀ (m : List (String × Nat)), m ≠ [] → arg_max m ∈ m
  | [], h => absurd rfl h
  | (k, c) :: rest, _ => by
    rcases arg_max_go_mem rest (k, c) with h' | h'
    · rw [show arg_max ((k, c) :: rest) = arg_max_go rest (k, c) from rfl, h']
      exact List.mem_cons_self ..
    · rw [show arg_max ((k, c) :: rest) = arg_max_go rest (k, c) from rfl]
      exact List.mem_cons_of_mem _ h'

/-- The count reported by `arg_max` over the tag-frequency dict is the
child count of some actual tag (when the child list is non-empty). -/
theorem arg_max_tag_freq (l : TList) (hl : l ≠ .nil) :
    ∃ tg, (arg_max (tag_freq_go l [])).2 = count_tag tg l := by
  have hne : tag_freq_go l [] ≠ [] := by
    cases l with
    | nil => exact absurd rfl hl
    | cons t rest =>
      cases t with
      | mk d cs =>
        rw [tag_freq_go]
        exact tag_freq_go_ne_nil rest _ (bump_ne_nil [] d.tag)
  have hmem := arg_max_mem _ hne
  have hnd := nodup_tag_freq l [] (by simp)
  have hget := dictGet_of_mem_nodup (tag_freq_go l [])
    (arg_max (tag_freq_go l [])).1 (arg_max (tag_freq_go l [])).2 hnd hmem
  refine ⟨(arg_max (tag_freq_go l [])).1, ?_⟩
  have hlook := tag_freq_lookup l [] (arg_max (tag_freq_go l [])).1
  simp only [lookupNat, hget, Option.getD_some] at hlook
  simpa [dictGet] using hlook

/-- Any non-zero per-tag count is bounded by the `arg_max` count. -/
theorem count_tag_le_arg_max (l : TList) (tg : String)
    (h : 1 ≤ count_tag tg l) :
    count_tag tg l ≤ (arg_max (tag_freq_go l [])).2 := by
  have hlook := tag_freq_lookup l [] tg
  simp only [lookupNat] at hlook
  rcases hget : dictGet (tag_freq_go l []) tg with _ | c
  · rw [hget] at hlook
    simp [dictGet] at hlook
    omega
  · rw [hget] at hlook
    simp only [Option.getD_some] at hlook
    have hmem := mem_of_dictGet _ _ _ hget
    have hge := arg_max_ge _ _ hmem
    simp only at hge
    simp [dictGet] at hlook
    omega

/-- **C7.** For every (already recursively processed) child list:
if it has more than `max_items` elements AND at least 70% of the
children share one tag AND at most 30% of the children contain an
interactive descendant, `_truncate_long_lists` keeps exactly the first
`show_head` children and appends the single synthetic placeholder node
with text `+K more (N total)`, `N` the child count and `K = N −
show_head`; if any of the three conditions fails, the child list is
returned unchanged. -/
theorem C7_truncate (children : TList) (max_items show_head : Nat) :
    (children.length > max_items →
      (∃ tg, 7 * children.length ≤ 10 * count_tag tg children) →
      10 * interactive_count children ≤ 3 * children.length →
      truncate_children max_items show_head children =
        (children.take show_head).append
          (.cons (placeholder_node children.length show_head) .nil)) ∧
    ((children.length ≤ max_items ∨
      (∀ tg, 10 * count_tag tg children < 7 * children.length) ∨
      3 * children.length < 10 * interactive_count children) →
      truncate_children max_items show_head children = children) := by
  constructor
  · intro hn htag hic
    obtain ⟨tg, htg⟩ := htag
    have hct : 1 ≤ count_tag tg children := by
      by_contra hcon
      omega
    have hmax := count_tag_le_arg_max children tg hct
    simp only [truncate_children]
    rw [if_neg (by omega), if_neg (by omega), if_neg (by omega)]
  · intro h
    simp only [truncate_children]
    rcases h with h | h | h
    · rw [if_pos h]
    · by_cases hn : children.length ≤ max_items
      · rw [if_pos hn]
      · rw [if_neg hn]
        have hlne : children ≠ .nil := by
          intro he
          rw [he] at hn
          simp [TList.length] at hn
        obtain ⟨tg, htg⟩ := arg_max_tag_freq children hlne
        rw [if_pos (by rw [htg]; exact h tg)]
    · by_cases hn : children.length ≤ max_items
      · rw [if_pos hn]
      · rw [if_neg hn]
        by_cases h2 : 10 * (arg_max (tag_freq_go children [])).2 <
            7 * children.length
        · rw [if_pos h2]
        · rw [if_neg h2, if_pos (by omega)]

/-- A pair of inert list items. -/
def c7cs : TList :=
  .cons (.mk { DNode.default with tag := "li", text := "A" } .nil)
    (.cons (.mk { DNode.default with tag := "li", text := "B" } .nil) .nil)

/-- Witness for `C7_truncate` at concrete inputs: with `max_items = 1`,
`show_head = 1` the two-`li` list is truncated to its head plus the
`+1 more (2 total)` placeholder; with `max_items = 5` it is unchanged. -/
theorem C7_truncate_witness :
    truncate_children 1 1 c7cs =
      (c7cs.take 1).append (.cons (placeholder_node 2 1) .nil) ∧
    truncate_children 5 1 c7cs = c7cs :=
  ⟨(C7_truncate c7cs 1 1).1 (by decide) ⟨"li", by decide⟩ (by decide),
   (C7_truncate c7cs 5 1).2 (Or.inl (by decide))⟩

/-! ### Claim C9 -/

/-- **C9.** If the compressor script selected for the url raises during
`process` (modelled as returning `.error`), `run` does not propagate the
error: it returns the result assembled from the *default* compressor's
`process` applied to the same raw node list. -/
theorem C9_fallback
    (script_process : List DNode → Except String (List DNode))
    (dom_nodes : List DNode) (html_len : Nat) (e : String)
    (h : script_process dom_nodes = .error e) :
    run_compressor script_process dom_nodes html_len =
      assemble_result dom_nodes (process dom_nodes) html_len := by
  rw [run_compressor, h]

/-- A script whose `process` always raises. -/
def c9script : List DNode → Except String (List DNode) :=
  fun _ => .error "boom"

/-- Witness for `C9_fallback` at a concrete input. -/
theorem C9_fallback_witness :
    run_compressor c9script [DNode.default] 9 =
      assemble_result [DNode.default] (process [DNode.default]) 9 :=
  C9_fallback c9script [DNode.default] 9 "boom" rfl

end Clawome

namespace Clawome

/-! ### Stage 1: `parse_dom` (dom_parser.py lines 208-386)

The parsed HTML is embedded as a mutually inductive document tree
(`HNode`/`Element`/`HList`): BeautifulSoup's parsing of the HTML string
and its `soup.body` lookup are outside the embedding — `parse_dom` is
given the parsed `<body>` element, with the standard
`[document] → html → body` ancestry assumed for selector chains.
Attribute values are single strings (multi-valued attributes such as
`class` are not consulted by any embedded code path). -/

mutual
inductive HNode where
  | text : String → HNode
  | elem : Element → HNode
  deriving DecidableEq
inductive Element where
  | mk : String → List (String × String) → HList → Element
  deriving DecidableEq
inductive HList where
  | nil : HList
  | cons : HNode → HList → HList
  deriving DecidableEq
end

def Element.name : Element → String
  | .mk n _ _ => n

def Element.attrs : Element → List (String × String)
  | .mk _ a _ => a

def Element.children : Element → HList
  | .mk _ _ cs => cs

/-- BeautifulSoup `tag.get(key)`. -/
def Element.get (el : Element) (k : String) : Option String :=
  dictGet el.attrs k

/-- `tag.get(key, default)` / `tag.get(key) or ""`. -/
def Element.getD (el : Element) (k d : String) : String :=
  (el.get k).getD d

def pyLower (s : String) : String :=
  String.mk (s.data.map Char.toLower)

def SKIP_TAGS : List String :=
  ["script", "style", "meta", "link", "noscript", "svg",
   "head", "br", "hr", "iframe", "object", "embed",
   "template", "slot", "col"]

def INLINE_TAGS : List String :=
  ["a", "span", "strong", "em", "b", "i", "u", "s",
   "code", "kbd", "mark", "small", "sub", "sup",
   "abbr", "cite", "time", "label"]

def GLOBAL_ATTRS : List String := ["id", "role", "aria-label", "title"]

def ATTR_RULES : List (String × List String) :=
  [("a", ["href"]),
   ("img", ["src", "alt"]),
   ("input", ["type", "name", "placeholder", "value"]),
   ("textarea", ["name", "placeholder"]),
   ("select", ["name"]),
   ("option", ["value"]),
   ("button", ["type"]),
   ("form", ["action", "method"]),
   ("video", ["src"]),
   ("audio", ["src"]),
   ("source", ["src", "type"]),
   ("th", ["colspan", "rowspan"]),
   ("td", ["colspan", "rowspan"])]

def STATE_ATTRS : List String :=
  ["disabled", "checked", "readonly", "required",
   "aria-expanded", "aria-selected", "aria-checked", "aria-pressed",
   "aria-current",
   "aria-valuenow", "aria-valuemin", "aria-valuemax"]

/-- Case-insensitive literal match (for the `re.IGNORECASE` patterns). -/
def matchCI : List Char → List Char → Option (List Char)
  | [], l => some l
  | _ :: _, [] => none
  | a :: as_, b :: bs => if a.toLower = b.toLower then matchCI as_ bs else none

/-- `_RE_DISPLAY_NONE = display\s*:\s*none` (ignorecase) at one position. -/
def matchDisplayNone (l : List Char) : Option (List Char) :=
  match matchCI "display".data l with
  | some r1 =>
    match r1.dropWhile Char.isWhitespace with
    | ':' :: r2 => matchCI "none".data (r2.dropWhile Char.isWhitespace)
    | _ => none
  | none => none

/-- `_RE_VISIBILITY_HIDDEN = visibility\s*:\s*hidden` (ignorecase). -/
def matchVisibilityHidden (l : List Char) : Option (List Char) :=
  match matchCI "visibility".data l with
  | some r1 =>
    match r1.dropWhile Char.isWhitespace with
    | ':' :: r2 => matchCI "hidden".data (r2.dropWhile Char.isWhitespace)
    | _ => none
  | none => none

/-- `_is_hidden` (dom_parser.py lines 66-85).  Note: no `opacity` check
and no bounding-rectangle check — those exist only in the in-page JS
walker of browser_manager.py, not in this server-side parser. -/
def is_hidden (el : Element) : Bool :=
  if el.get "data-bgroup" == some "active" then false
  else if el.get "data-bhidden" == some "1" then true
  else if (el.get "hidden").isSome then true
  else if pyLower (el.getD "aria-hidden" "") == "true" then true
  else if el.name == "input" && pyLower (el.getD "type" "") == "hidden" then true
  else if el.name == "dialog" && !(el.get "open").isSome then true
  else
    let style := el.getD "style" ""
    if style != "" then
      if reSearch matchDisplayNone style.data then true
      else if reSearch matchVisibilityHidden style.data then true
      else false
    else false

def TYPEABLE_INPUT_TYPES : List String :=
  ["text", "search", "email", "password", "url", "tel", "number", ""]

def CLICKABLE_INPUT_TYPES : List String :=
  ["submit", "button", "reset", "image"]

/-- `_detect_actions(tag_name, raw_attrs)`. -/
def detect_actions (tag_name : String) (raw : List (String × String)) :
    List String :=
  let role := (dictGet raw "role").getD ""
  let input_type := pyLower ((dictGet raw "type").getD "text")
  if tag_name == "a" || role == "link" then ["click"]
  else if tag_name == "button" || role == "button" then ["click"]
  else if tag_name == "input" then
    if TYPEABLE_INPUT_TYPES.contains input_type then ["type"]
    else if CLICKABLE_INPUT_TYPES.contains input_type then ["click"]
    else if input_type == "checkbox" || input_type == "radio" then ["click"]
    else []
  else if tag_name == "textarea" || role == "combobox" then ["type"]
  else if tag_name == "select" then ["select"]
  else if ["checkbox", "radio", "switch", "tab", "menuitem", "option"].contains role
  then ["click"]
  else []

/-- `_raw_attrs`. -/
def raw_attrs (el : Element) : List (String × String) :=
  [("role", (el.get "role").getD ""), ("type", (el.get "type").getD "")]

mutual
def strings_node : HNode → List String
  | .text s => [s]
  | .elem e => strings_elem e
def strings_elem : Element → List String
  | .mk _ _ cs => strings_list cs
def strings_list : HList → List String
  | .nil => []
  | .cons n rest => strings_node n ++ strings_list rest
end

/-- Python `"sep".join(parts)`. -/
def py_join (sep : String) : List String → String
  | [] => ""
  | [s] => s
  | s :: rest => s ++ sep ++ py_join sep rest

/-- BeautifulSoup `get_text(separator=" ", strip=True)`: every text
descendant stripped, empties dropped, joined with a space. -/
def get_text_ws (el : Element) : String :=
  py_join " " (((strings_elem el).map pyStrip).filter (· ≠ ""))

/-- The `parts` list of `_collect_text` (lines 214-229): direct text
children stripped; inline element children contribute their full text,
wrapped in `⟨ ⟩` when they carry an action. -/
def collect_parts : HList → List String
  | .nil => []
  | .cons (.text s) rest => pyStrip s :: collect_parts rest
  | .cons (.elem e) rest =>
    (if INLINE_TAGS.contains e.name then
      let child_text := get_text_ws e
      if child_text == "" then []
      else if !(detect_actions e.name
          [("role", e.getD "role" ""), ("type", e.getD "type" "")]).isEmpty then
        ["⟨" ++ child_text ++ "⟩"]
      else [child_text]
    else []) ++ collect_parts rest

/-- `_collect_text`. -/
def collect_text (el : Element) : String :=
  py_join " " ((collect_parts el.children).filter (· ≠ ""))

/-- `v.rsplit(c, 1)[-1]`. -/
def afterLastChar (c : Char) (l : List Char) : List Char :=
  (l.reverse.takeWhile (· ≠ c)).reverse

/-- `v.rsplit(c, 1)[0]`. -/
def beforeLastChar (c : Char) (l : List Char) : List Char :=
  if l.contains c then ((l.reverse.dropWhile (· ≠ c)).drop 1).reverse else l

/-- `src.rsplit("/", 1)[-1].rsplit("?", 1)[0].rsplit("#", 1)[0]`. -/
def src_fname (v : String) : String :=
  String.mk (beforeLastChar '#' (beforeLastChar '?' (afterLastChar '/' v.data)))

/-- The `pairs` loop of `_fmt_attrs` (lines 231-264). -/
def fmt_pairs (el : Element) : List String → List String
  | [] => []
  | k :: rest =>
    (match el.get k with
     | none => []
     | some v0 =>
       let v := pyStrip v0
       if v == "" then []
       else if k == "href" then [k]
       else if k == "src" then
         if !(pyStartsWith v "data:") then
           let fname := src_fname v
           if fname != "" && decide (pyLen fname ≤ 80) then
             ["src=\"" ++ fname ++ "\""]
           else [k]
         else [k]
       else if k == "action" then
         let path := String.mk (v.data.takeWhile (· ≠ '?'))
         let path := if decide (pyLen path > 60) then pyTake path 60 ++ "…" else path
         ["action=\"" ++ path ++ "\""]
       else
         let v := if decide (pyLen v > 80) then pyTake v 80 ++ "…" else v
         [k ++ "=\"" ++ v ++ "\""]) ++ fmt_pairs el rest

/-- `_fmt_attrs`. -/
def fmt_attrs (el : Element) : String :=
  py_join ", " (fmt_pairs el (GLOBAL_ATTRS ++ (dictGet ATTR_RULES el.name).getD []))

/-- The `STATE_ATTRS` loop of `_detect_state`. -/
def state_pairs (el : Element) : List String → List (String × String)
  | [] => []
  | a :: rest =>
    (match el.get a with
     | some v => [(a, if v == "" then "true" else v)]
     | none => []) ++ state_pairs el rest

/-- `_detect_state` (lines 156-168). -/
def detect_state (el : Element) : List (String × String) :=
  let base := state_pairs el STATE_ATTRS
  if ["input", "textarea", "select"].contains el.name then
    match el.get "value" with
    | some v => base ++ [("value", pyTake v 80)]
    | none => base
  else base

/-! #### Selector generation with an explicit ancestor chain

`_css_selector`/`_xpath_selector` walk `el.parent` upward; the embedding
carries the ancestor chain downward during the walk.  Each entry holds
the ancestor element (for the in-chain `#id` short-circuit), its
precomputed `nth-of-type` part among its same-tag siblings, and whether
its parent is the document (where the upward loop appends the bare name
and stops). -/

structure ChainEnt where
  el : Element
  top : Bool
  cssPart : String
  xPart : String
  deriving DecidableEq

/-- The ancestor-chain loop of `_css_selector` (bottom-up parts). -/
def css_chain : List ChainEnt → List String
  | [] => []
  | e :: rest =>
    if e.top then [e.el.name]
    else
      let eid := e.el.getD "id" ""
      if eid != "" then ["#" ++ eid]
      else e.cssPart :: css_chain rest

/-- `aria.replace("\\", "\\\\").replace('"', '\\"')`. -/
def escape_aria (s : String) : String :=
  String.mk (s.data.foldr
    (fun c acc =>
      (if c = '\\' then ['\\', '\\'] else if c = '"' then ['\\', '"'] else [c]) ++ acc)
    [])

/-- `_css_selector` (lines 91-126), given the element's own chain entry
consed onto its ancestors' entries. -/
def css_selector (el : Element) (chain : List ChainEnt) : String :=
  let bid := el.getD "data-bid" ""
  if bid != "" then "[data-bid=\"" ++ bid ++ "\"]"
  else
    let tid := el.getD "id" ""
    if tid != "" then "#" ++ tid
    else
      let aria := el.getD "aria-label" ""
      if aria != "" then
        el.name ++ "[aria-label=\"" ++ escape_aria aria ++ "\"]"
      else
        let nm := el.getD "name" ""
        if nm != "" then el.name ++ "[name=\"" ++ nm ++ "\"]"
        else py_join " > " (css_chain chain).reverse

/-- The ancestor-chain loop of `_xpath_selector` (lines 132-150). -/
def xpath_chain : List ChainEnt → List String
  | [] => []
  | e :: rest => if e.top then [e.el.name] else e.xPart :: xpath_chain rest

def xpath_selector (chain : List ChainEnt) : String :=
  "/" ++ py_join "/" (xpath_chain chain).reverse

/-- The Tag children of a node list (`[c for c in parent.children if
isinstance(c, Tag)]`). -/
def tag_children : HList → List Element
  | .nil => []
  | .cons (.text _) rest => tag_children rest
  | .cons (.elem e) rest => e :: tag_children rest

/-- Build a child's chain entry from its parent's Tag children:
`nth-of-type`/`[i]` among same-tag siblings, with BeautifulSoup's
`siblings.index(el)` (structural equality, first match) semantics. -/
def sibling_entry (parent_tag_children : List Element) (c : Element) : ChainEnt :=
  let siblings := parent_tag_children.filter (fun e => e.name == c.name)
  let idx := siblings.indexOf c + 1
  ⟨c, false,
    if siblings.length == 1 then c.name
    else c.name ++ ":nth-of-type(" ++ toString idx ++ ")",
    if siblings.length == 1 then c.name
    else c.name ++ "[" ++ toString idx ++ "]"⟩

/-- `text or aria-label or title or icon or placeholder or alt or img
or value or ""`. -/
def first_truthy : List String → String
  | [] => ""
  | s :: rest => if s != "" then s else first_truthy rest

mutual
/-- Is any proper-or-self Tag of this subtree a non-skipped element with
actions?  (Used for the `cell_el.descendants` check of the `<tr>`
branch; the cell itself is excluded by starting from its children.) -/
def any_qual_node : HNode → Bool
  | .text _ => false
  | .elem e => any_qual_elem e
def any_qual_elem : Element → Bool
  | .mk n a cs =>
    (!(SKIP_TAGS.contains n) &&
      !(detect_actions n (raw_attrs (.mk n a cs))).isEmpty) ||
      any_qual_list cs
def any_qual_list : HList → Bool
  | .nil => false
  | .cons h rest => any_qual_node h || any_qual_list rest
end

/-- The pipe-joined cell texts of a `<tr>` (lines 288-299). -/
def tr_cell_texts : HList → List String
  | .nil => []
  | .cons (.text _) rest => tr_cell_texts rest
  | .cons (.elem e) rest =>
    (if e.name == "td" || e.name == "th" then
      let ct := collect_text e
      let ct := if ct == "" then get_text_ws e else ct
      let ct := if decide (pyLen ct > 500) then pyTake ct 500 ++ "…" else ct
      [ct]
    else []) ++ tr_cell_texts rest

/-- The walker state: the `counter` cell and the `nodes` accumulator. -/
structure WalkSt where
  count : Nat
  nodes : List DNode
  deriving DecidableEq

/-- The raw node emitted for a `<tr>` (lines 300-312; the dict has no
`inlined` key). -/
def tr_node (c : Element) (depth : Nat) (chainC : List ChainEnt)
    (row_text : String) (idx : Nat) : DNode :=
  ⟨idx, "", depth, "tr", fmt_attrs c, row_text, css_selector c chainC,
    xpath_selector chainC, [], row_text, "", detect_state c, false⟩

/-- The raw node emitted for an ordinary element (lines 367-380). -/
def elem_node (c : Element) (depth : Nat) (chainC : List ChainEnt) (idx : Nat) :
    DNode :=
  let text := collect_text c
  let actions := detect_actions c.name (raw_attrs c)
  let group := c.getD "data-bgroup" ""
  let state0 := detect_state c
  let state :=
    if group == "active" then state0 ++ [("selected", "true")]
    else if group == "inactive" then state0 ++ [("hidden", "true")]
    else state0
  let icon := c.getD "data-bicon" ""
  let img_name :=
    if ["img", "video", "audio", "source"].contains c.name then
      let src := c.getD "src" ""
      if src != "" && !(pyStartsWith src "data:") then
        let fname := src_fname src
        if pyIn "." fname then String.mk (beforeLastChar '.' fname.data) else fname
      else ""
    else ""
  let label := first_truthy
    [text, c.getD "aria-label" "", c.getD "title" "",
      if icon != "" then "[icon: " ++ icon ++ "]" else "",
      c.getD "placeholder" "", c.getD "alt" "",
      if img_name != "" then "[img: " ++ img_name ++ "]" else "",
      c.getD "value" ""]
  let label := if decide (pyLen label > 500) then pyTake label 500 ++ "…" else label
  let block_children :=
    (tag_children c.children).filter (fun e => !SKIP_TAGS.contains e.name)
  let is_inlined :=
    INLINE_TAGS.contains c.name && !actions.isEmpty && block_children.isEmpty
  let display_text :=
    if is_inlined then ""
    else if text != "" then text
    else if icon != "" then "[icon: " ++ icon ++ "]" else ""
  ⟨idx, "", depth, c.name, fmt_attrs c, display_text, css_selector c chainC,
    xpath_selector chainC, actions, label, "", state, is_inlined⟩

/-- Whether an emitted element recurses into its children
(`if block_children:`). -/
def has_block_children (c : Element) : Bool :=
  !((tag_children c.children).filter (fun e => !SKIP_TAGS.contains e.name)).isEmpty

mutual
/-- The `for child in el.children` loop body of `_walk` (lines 275-383).
The entry guard of the recursive `_walk(child, depth + 1)` calls
(`counter >= max_nodes or depth > max_depth → return`) is inlined at the
two call sites so that the recursion is structural; `walk_elem` below
packages it back up. -/
def walk_list (mn md depth : Nat) (parent_tcs : List Element)
    (chain : List ChainEnt) : HList → WalkSt → WalkSt
  | .nil, st => st
  | .cons (.text _) rest, st =>
    if mn ≤ st.count then st
    else walk_list mn md depth parent_tcs chain rest st
  | .cons (.elem (.mk cn ca ccs)) rest, st =>
    if mn ≤ st.count then st
    else
      let c : Element := .mk cn ca ccs
      if SKIP_TAGS.contains cn then
        walk_list mn md depth parent_tcs chain rest st
      else if is_hidden c then
        walk_list mn md depth parent_tcs chain rest st
      else if cn == "tr" then
        let chainC := sibling_entry parent_tcs c :: chain
        let row_cells := tr_cell_texts ccs
        let row_text := if row_cells ≠ [] then py_join " | " row_cells else ""
        let st1 : WalkSt :=
          ⟨st.count + 1,
            st.nodes ++ [tr_node c depth chainC row_text (st.count + 1)]⟩
        let st2 := walk_tr_cells mn md depth (tag_children ccs) chainC ccs st1
        walk_list mn md depth parent_tcs chain rest st2
      else
        let chainC := sibling_entry parent_tcs c :: chain
        let st1 : WalkSt :=
          ⟨st.count + 1, st.nodes ++ [elem_node c depth chainC (st.count + 1)]⟩
        let st2 :=
          if has_block_children c then
            if mn ≤ st1.count || md < depth + 1 then st1
            else walk_list mn md (depth + 1) (tag_children ccs) chainC ccs st1
          else st1
        walk_list mn md depth parent_tcs chain rest st2
/-- The `for cell_el in cell_elements` loop of the `<tr>` branch
(lines 313-320): walk each `td`/`th` containing an interactive
descendant (again with `_walk`'s entry guard inlined). -/
def walk_tr_cells (mn md depth : Nat) (tr_tcs : List Element)
    (chain : List ChainEnt) : HList → WalkSt → WalkSt
  | .nil, st => st
  | .cons (.text _) rest, st => walk_tr_cells mn md depth tr_tcs chain rest st
  | .cons (.elem (.mk en ea ecs)) rest, st =>
    let e : Element := .mk en ea ecs
    let st' :=
      if en == "td" || en == "th" then
        if any_qual_list ecs then
          if mn ≤ st.count || md < depth + 1 then st
          else walk_list mn md (depth + 1) (tag_children ecs)
            (sibling_entry tr_tcs e :: chain) ecs st
        else st
      else st
    walk_tr_cells mn md depth tr_tcs chain rest st'
end

/-- `_walk(el, depth)`: guard, then iterate `el.children`. -/
def walk_elem (mn md : Nat) (el : Element) (depth : Nat)
    (chain : List ChainEnt) (st : WalkSt) : WalkSt :=
  if mn ≤ st.count || md < depth then st
  else walk_list mn md depth (tag_children el.children) chain el.children st

/-- `parse_dom`, given the parsed `<body>` element and the `max_nodes`
and `max_depth` configuration values, with the standard
`[document] → html → body` ancestry for the selector chains. -/
def parse_dom (mn md : Nat) (body : Element) : List DNode :=
  let htmlEl : Element := .mk "html" [] (.cons (.elem body) .nil)
  let chain0 : List ChainEnt :=
    [⟨body, false, "body", "body"⟩, ⟨htmlEl, true, "html", "html"⟩]
  (walk_elem mn md body 0 chain0 ⟨0, []⟩).nodes

end Clawome

namespace Clawome

/-! ### Claim C3 -/

/-- A `div` carrying an inline `opacity:0` style — *not* one of the
conditions `_is_hidden` checks. -/
def c3div : Element :=
  .mk "div" [("style", "opacity:0")] (.cons (.text "secret") .nil)

def c3body : Element := .mk "body" [] (.cons (.elem c3div) .nil)

/-- **C3, counterexample.** A style whose value contains `opacity:0` is
*not* decided hidden by `parse_dom`'s `_is_hidden` (which only checks
`display:none` and `visibility:hidden` in the `style` attribute; the
`opacity`/zero-rectangle checks exist only in the in-page JS walker):
the element is emitted into the raw node list. -/
theorem C3_counterexample :
    is_hidden c3div = false ∧
    (parse_dom 20000 50 c3body).map (fun n => (n.tag, n.text)) =
      [("div", "secret")] := by
  exact ⟨by decide, by decide⟩

/-- **C3, amended.** For every element, if any of the conditions
`_is_hidden` actually checks holds — `data-bhidden="1"`, the `hidden`
attribute, `aria-hidden=true`, `<input type=hidden>`, `<dialog>` without
`open`, or an inline `style` matching `display:none`/`visibility:hidden`
— and the element is not exempted by `data-bgroup="active"`, then the
walk loop of `parse_dom` skips it entirely: neither the element nor any
of its descendants is emitted (the state passes through unchanged, up to
the `max_nodes` early return that skips the rest of the loop). -/
theorem C3_amended (mn md depth : Nat) (parent_tcs : List Element)
    (chain : List ChainEnt) (c : Element) (rest : HList) (st : WalkSt)
    (h : is_hidden c = true) :
    walk_list mn md depth parent_tcs chain (.cons (.elem c) rest) st =
      if mn ≤ st.count then st
      else walk_list mn md depth parent_tcs chain rest st := by
  cases c with
  | mk n a cs =>
    simp only [walk_list]
    by_cases hc : mn ≤ st.count
    · simp [hc]
    · simp only [if_neg hc]
      by_cases hs : SKIP_TAGS.contains n
      · rw [if_pos hs]
      · rw [if_neg hs, if_pos h]

/-- A plainly hidden element (`hidden` attribute). -/
def c3hid : Element := .mk "div" [("hidden", "")] (.cons (.text "gone") .nil)

/-- Witness for `C3_amended` at a concrete input: the hidden `div` and
its subtree contribute nothing to the walk. -/
theorem C3_amended_witness :
    walk_list 20000 50 0 [] [] (.cons (.elem c3hid) .nil) ⟨0, []⟩ =
      (⟨0, []⟩ : WalkSt) := by
  rw [C3_amended 20000 50 0 [] [] c3hid .nil ⟨0, []⟩ (by decide)]
  decide

/-! ### Claim C6 -/

theorem startsWithL_refl : ∀ l : List Char, startsWithL l l = true
  | [] => rfl
  | c :: rest => by simp [startsWithL, startsWithL_refl rest]

theorem startsWithL_self_append : ∀ (p r : List Char),
    startsWithL p (p ++ r) = true
  | [], _ => rfl
  | c :: p, r => by simp [startsWithL, startsWithL_self_append p r]

theorem containsL_of_startsWith : ∀ (p l : List Char),
    startsWithL p l = true → containsL p l = true
  | p, [], h => by simpa [containsL] using h
  | p, _ :: _, h => by simp [containsL, h]

theorem containsL_self_append (p r : List Char) : containsL p (p ++ r) = true :=
  containsL_of_startsWith p (p ++ r) (startsWithL_self_append p r)

theorem containsL_append_left : ∀ (pre l p : List Char),
    containsL p l = true → containsL p (pre ++ l) = true
  | [], _, _, h => h
  | c :: pre, l, p, h => by
    rw [List.cons_append]
    show (startsWithL p (c :: (pre ++ l)) || containsL p (pre ++ l)) = true
    rw [containsL_append_left pre l p h, Bool.or_true]

/-- A member of the joined parts list is a substring of the join. -/
theorem pyIn_join : ∀ (l : List String) (p : String),
    p ∈ l → pyIn p (py_join " " l) = true
  | [], p, h => by simp at h
  | [s], p, h => by
    simp only [List.mem_singleton] at h
    subst h
    simp only [py_join, pyIn]
    simpa using containsL_self_append p.data []
  | s :: t :: rest, p, h => by
    rcases List.mem_cons.mp h with h | h
    · subst h
      simp only [py_join, pyIn]
      rw [String.data_append, String.data_append, List.append_assoc]
      exact containsL_self_append p.data _
    · have ih := pyIn_join (t :: rest) p h
      simp only [py_join, pyIn] at ih ⊢
      rw [String.data_append]
      exact containsL_append_left _ _ _ ih

theorem not_isEmpty_of_ne_nil {α : Type} (l : List α) (h : l ≠ []) :
    (!l.isEmpty) = true := by
  cases l with
  | nil => exact absurd rfl h
  | cons a rest => rfl

/-- Membership in an `HList`. -/
def hlist_contains (n : HNode) : HList → Bool
  | .nil => false
  | .cons h rest => h == n || hlist_contains n rest

theorem wrapped_mem_collect_parts : ∀ (cs : HList) (C : Element),
    hlist_contains (.elem C) cs = true →
    INLINE_TAGS.contains C.name = true →
    detect_actions C.name (raw_attrs C) ≠ [] →
    get_text_ws C ≠ "" →
    ("⟨" ++ get_text_ws C ++ "⟩") ∈ collect_parts cs
  | .nil, C, hmem, _, _, _ => by simp [hlist_contains] at hmem
  | .cons h rest, C, hmem, h1, h2, h3 => by
    simp only [hlist_contains, Bool.or_eq_true, beq_iff_eq] at hmem
    rcases hmem with hmem | hmem
    · subst hmem
      cases C with
      | mk n a cs =>
        simp only [collect_parts]
        rw [if_pos (by simpa [Element.name] using h1)]
        rw [if_neg (by simpa [ne_eq, ← String.ext_iff] using h3)]
        rw [if_pos ?_]
        · exact List.mem_append_left _ (List.mem_singleton.mpr rfl)
        · exact not_isEmpty_of_ne_nil _
            (by simpa [raw_attrs, Element.getD, Element.name] using h2)
    · cases h with
      | text s =>
        simp only [collect_parts]
        exact List.mem_cons_of_mem _
          (wrapped_mem_collect_parts rest C hmem h1 h2 h3)
      | elem e =>
        simp only [collect_parts]
        exact List.mem_append_right _
          (wrapped_mem_collect_parts rest C hmem h1 h2 h3)

/-- **C6.** An element marked `inlined=true` never yields a line of the
rendered tree (`format_dom_tree`'s lines are exactly the non-inlined
nodes' lines, in order), and for any element whose inline actionable
child has non-empty text — in particular any child the walker marks
`inlined` — the child's full text appears inside the parent's collected
text wrapped in `⟨ ⟩`. -/
theorem C6_inlined (ns : List DNode) (P C : Element) :
    (format_tree_lines ns = (ns.filter fun n => !n.inlined).map format_line) ∧
    (hlist_contains (.elem C) P.children = true →
      INLINE_TAGS.contains C.name = true →
      detect_actions C.name (raw_attrs C) ≠ [] →
      get_text_ws C ≠ "" →
      pyIn ("⟨" ++ get_text_ws C ++ "⟩") (collect_text P) = true) := by
  refine ⟨format_tree_lines_eq ns, fun hmem h1 h2 h3 => ?_⟩
  have hpart := wrapped_mem_collect_parts P.children C hmem h1 h2 h3
  have hne : ("⟨" ++ get_text_ws C ++ "⟩") ≠ "" := by
    intro he
    have hlen := congrArg String.length he
    rw [String.length_append, String.length_append] at hlen
    have h1 : "⟨".length = 1 := rfl
    have h3 : "".length = 0 := rfl
    omega
  rw [collect_text]
  exact pyIn_join _ _ (List.mem_filter.mpr ⟨hpart, by simpa using hne⟩)

/-- An inline `<a>` with an action and text, inside a `<p>`. -/
def c6a : Element := .mk "a" [("href", "/x")] (.cons (.text "Click me") .nil)

def c6p : Element :=
  .mk "p" [] (.cons (.text "Intro ") (.cons (.elem c6a) .nil))

/-- Witness for `C6_inlined` at a concrete input: the `⟨Click me⟩`
marker appears in the parent's text (and the walker indeed marks the
`<a>` inlined with an empty own text). -/
theorem C6_inlined_witness :
    pyIn ("⟨" ++ get_text_ws c6a ++ "⟩") (collect_text c6p) = true ∧
    (parse_dom 20000 50 (.mk "body" [] (.cons (.elem c6p) .nil))).map
        (fun n => (n.tag, n.text, n.inlined)) =
      [("p", "Intro ⟨Click me⟩", false), ("a", "", true)] :=
  ⟨(C6_inlined [] c6p c6a).2 (by decide) (by decide) (by decide) (by decide),
   by decide⟩

end Clawome
